import Mathlib

/-!
# Verification of the iframe-integration-suite RPC core

Shallow embedding of the postMessage RPC layer of the
`iframe-integration-suite` repository, together with proofs about the
claims of its specification.

Embedded components (source locations given per definition):
* the simple `RPC` class (`src/unnamed/part_001`),
* the enhanced `RPC` class and `EmbedApi` (`src/src/child/embedApi.js`),
* `SecurityUtils.validateOrigin`, `SecurityUtils.validatePostMessageData`
  and `SecurityUtils.createRateLimiter` (`src/unnamed/part_003`),
* `MonitoringUtils.createRetryHandler` (`src/unnamed/part_002`).

JavaScript runtime values crossing the message boundary are modelled by
`JSValue`; maps are modelled by association lists with `Map.set`
semantics; the pending-call set (a `Map` keyed by correlation id) is
modelled by a `Finset` of ids.
-/

set_option autoImplicit false

/-- Model of a JavaScript runtime value as it appears in `event.data`
and inside message frames. -/
inductive JSValue where
  | vUndefined : JSValue
  | vNull : JSValue
  | vBool (b : Bool) : JSValue
  | vNum (n : Int) : JSValue
  | vStr (s : String) : JSValue
  | vArr (xs : List JSValue) : JSValue
  | vObj (fields : List (String × JSValue)) : JSValue

/-- JavaScript property access `data[k]` on an object value: the first
binding for the key (object literals in the source never repeat keys);
a missing property reads as `undefined`.  Property access on a
non-object primitive also yields `undefined` for the frame-field names
used by the source (`type`, `id`, `method`, `args`, `result`, `error`).
Access on `null`/`undefined` throws and is guarded separately by the
callers below. -/
def getField : JSValue → String → JSValue
  | .vObj fields, k => (fields.lookup k).getD .vUndefined
  | _, _ => .vUndefined

/-- JavaScript truthiness of a value (used by `if (error)`). -/
def jsTruthy : JSValue → Bool
  | .vUndefined => false
  | .vNull => false
  | .vBool b => b
  | .vNum n => !(n == 0)
  | .vStr s => !s.isEmpty
  | .vArr _ => true
  | .vObj _ => true

/-- `data === null || data === undefined` (the values on which
destructuring `event.data` throws a `TypeError`). -/
def isNullish : JSValue → Bool
  | .vNull => true
  | .vUndefined => true
  | _ => false

/-- JavaScript string coercion as used by the template literal
`` `Method '${method}' not found` `` when `method` is not a string. -/
def jsToDisplayString : JSValue → String
  | .vUndefined => "undefined"
  | .vNull => "null"
  | .vBool b => if b then "true" else "false"
  | .vNum n => toString n
  | .vStr s => s
  | .vArr _ => ""
  | .vObj _ => "[object Object]"

/-- A registered method handler: receives the spread `args` and either
returns a result value or fails with an error message (the `.message`
of the thrown/rejected error). -/
def Handler : Type := List JSValue → Except String JSValue

/-- `Map.set` on an association list: replace the value of an existing
key in place, otherwise append a new entry. -/
def assocSet {α β : Type} [BEq α] : List (α × β) → α → β → List (α × β)
  | [], k, v => [(k, v)]
  | (k', v') :: rest, k, v =>
      if k' == k then (k, v) :: rest else (k', v') :: assocSet rest k v

/-- `RPC.expose` / `EmbedApi.expose`: `this.exposedMethods.set(method, handler)`
(`src/unnamed/part_001` lines 106-108, `embedApi.js` lines 140-142 and
961-963). Last registration wins because `Map.set` overwrites. -/
def expose (reg : List (String × Handler)) (method : String) (h : Handler) :
    List (String × Handler) :=
  assocSet reg method h

/-- How a pending call's future is settled. -/
inductive SettleKind where
  | fulfilled : SettleKind
  | rejectedByError : SettleKind
  | rejectedByTimeout : SettleKind
deriving DecidableEq, Repr

/-- Truthiness of the `error` field of a response frame when it has
already been projected to an optional string. -/
def errTruthy : Option String → Bool
  | none => false
  | some s => !s.isEmpty

/-- `RPC.handleResponse` (`src/unnamed/part_001` lines 52-63; the
enhanced copy at `embedApi.js` lines 893-904 and `EmbedApi.handleResponse`
at lines 86-97 are textually identical): look up the pending entry for
the correlation id; if absent, return with no effect; otherwise delete
the entry and settle it — reject when `error` is truthy, resolve
otherwise.  The state is the key set of `this.pendingRequests`; the
returned action says which future was settled and how. -/
def handleResponse (pending : Finset ℕ) (id : ℕ) (error : Option String) :
    Finset ℕ × Option (ℕ × SettleKind) :=
  if id ∈ pending then
    (pending.erase id,
      some (id, if errTruthy error then .rejectedByError else .fulfilled))
  else
    (pending, none)

/-- The timeout callback scheduled by `RPC.call`
(`src/unnamed/part_001` lines 94-99, `embedApi.js` lines 948-954):
if the entry is still pending, delete it and reject with a timeout
error; otherwise do nothing. -/
def timeoutFire (pending : Finset ℕ) (id : ℕ) :
    Finset ℕ × Option (ℕ × SettleKind) :=
  if id ∈ pending then (pending.erase id, some (id, .rejectedByTimeout))
  else (pending, none)

/-- An event hitting the pending-call set of one endpoint: an inbound
response frame, or a deadline timer firing. -/
inductive RpcEvent where
  | response (id : ℕ) (error : Option String) : RpcEvent
  | deadline (id : ℕ) : RpcEvent

/-- One step of the pending-call state machine. -/
def rpcStep : RpcEvent → Finset ℕ → Finset ℕ × Option (ℕ × SettleKind)
  | .response id err, p => handleResponse p id err
  | .deadline id, p => timeoutFire p id

/-- Run a sequence of response/deadline events, accumulating the
settlement actions they perform. -/
def runEvents : List RpcEvent → Finset ℕ → Finset ℕ × List (ℕ × SettleKind)
  | [], p => (p, [])
  | e :: es, p =>
      let step := rpcStep e p
      let rest := runEvents es step.1
      (rest.1, step.2.toList ++ rest.2)

/-- Number of settlement actions for a given correlation id in a run. -/
def settleCount (id : ℕ) (actions : List (ℕ × SettleKind)) : ℕ :=
  (actions.filter (fun a => a.1 = id)).length

/-- Options object accepted by the enhanced `RPC` constructor
(`embedApi.js` lines 798-810).  The source reads `allowedOrigins`,
`enableRateLimit`, `maxRequests`, `timeWindow` and `validateMessages`;
`callTimeoutMs` is the option named by the specification's
configuration surface (§6) — a caller may pass it, but no code reads
it. -/
structure RpcOptions where
  allowedOrigins : Option (List String) := none
  enableRateLimit : Option Bool := none
  maxRequests : Option Nat := none
  timeWindow : Option Nat := none
  validateMessages : Option Bool := none
  callTimeoutMs : Option Nat := none

/-- The delay passed to `setTimeout` by `RPC.call`: the literal `10000`
(`src/unnamed/part_001` line 99 and `embedApi.js` line 954).  Neither
implementation reads any option for it, so the value is independent of
the constructor options. -/
def callTimeoutDelay (_opts : RpcOptions) : ℕ := 10000

/-- State of a simple `RPC` instance relevant to the call path:
the `messageId` counter, the key set of `pendingRequests`, and the
`exposedMethods` registry. -/
structure SimpleRpcState where
  messageId : ℕ
  pending : Finset ℕ
  methods : List (String × Handler)

/-- The request frame posted by `RPC.call`. -/
structure RequestFrame where
  id : ℕ
  method : String
  args : List JSValue

/-- `RPC.call` (`src/unnamed/part_001` lines 80-101): increment the
message counter, register the pending entry under the fresh id, post a
request frame, and schedule the timeout callback after
`callTimeoutDelay` milliseconds.  Returns the new state, the posted
frame, and the scheduled timer duration. -/
def callStep (opts : RpcOptions) (st : SimpleRpcState) (method : String)
    (args : List JSValue) : SimpleRpcState × RequestFrame × ℕ :=
  let id := st.messageId + 1
  ({ st with messageId := id, pending := insert id st.pending },
    ⟨id, method, args⟩, callTimeoutDelay opts)

/-- `RPC.destroy` (`src/unnamed/part_001` lines 120-124):
`pendingRequests.clear()` and `exposedMethods.clear()`.  `Map.clear`
invokes no stored callback, so the returned settlement list is empty:
no pending future is rejected at destroy time.  The `messageId`
counter is untouched. -/
def destroySimpleRpc (st : SimpleRpcState) :
    SimpleRpcState × List (ℕ × SettleKind) :=
  ({ st with pending := ∅, methods := [] }, [])

/-- A response frame sent by `sendResponse`, together with the window
it is posted to.  Windows are identified by opaque numeric handles. -/
structure SendAction where
  target : ℕ
  id : ℕ
  result : Option JSValue
  error : Option String

/-- An inbound `rpc-request` message event as seen by a request
handler: the event's source window plus the destructured frame
fields. -/
structure ReqEvent where
  source : ℕ
  id : ℕ
  method : String
  args : List JSValue

/-- `RPC.handleRequest` (`src/unnamed/part_001` lines 34-47; the
enhanced copy at `embedApi.js` lines 875-888 is identical): dispatch
on the `exposedMethods` registry and send the response via
`this.sendResponse(event.source, ...)` — the response always targets
the inbound event's source window. -/
def rpcHandleRequest (methods : List (String × Handler)) (ev : ReqEvent) :
    SendAction :=
  match methods.lookup ev.method with
  | none => ⟨ev.source, ev.id, none, some ("Method '" ++ ev.method ++ "' not found")⟩
  | some h =>
      match h ev.args with
      | .ok r => ⟨ev.source, ev.id, some r, none⟩
      | .error e => ⟨ev.source, ev.id, none, some e⟩

/-- State of an `EmbedApi` instance relevant to the serve path:
the statically captured `this.parentWindow` handle, the
`exposedMethods` registry, and the value `getPageInfo()` returns. -/
structure EmbedApiState where
  parentWindow : ℕ
  exposedMethods : List (String × Handler)
  pageInfo : JSValue

/-- `EmbedApi.handleRequest` (`embedApi.js` lines 56-81) combined with
`EmbedApi.sendResponse` (lines 102-109): the built-in `ping` and
`getInfo` branches are checked before the registry, and every response
is posted to `this.parentWindow` — `sendResponse` takes no target and
ignores the event's source. -/
def embedHandleRequest (api : EmbedApiState) (ev : ReqEvent) : SendAction :=
  if ev.method = "ping" then
    ⟨api.parentWindow, ev.id, some (.vStr "pong"), none⟩
  else if ev.method = "getInfo" then
    ⟨api.parentWindow, ev.id, some api.pageInfo, none⟩
  else
    match api.exposedMethods.lookup ev.method with
    | none => ⟨api.parentWindow, ev.id, none,
        some ("Method '" ++ ev.method ++ "' not found")⟩
    | some h =>
        match h ev.args with
        | .ok r => ⟨api.parentWindow, ev.id, some r, none⟩
        | .error e => ⟨api.parentWindow, ev.id, none, some e⟩

/-- `window.addEventListener('message', f)`: listeners are kept in
registration order; registering the same function reference twice is
a no-op.  Function references are opaque numeric identities. -/
def jsAddEventListener (listeners : List ℕ) (f : ℕ) : List ℕ :=
  if f ∈ listeners then listeners else listeners ++ [f]

/-- `window.removeEventListener('message', f)`: removes the listener
whose function reference is `f`, if present; otherwise a no-op. -/
def jsRemoveEventListener (listeners : List ℕ) (f : ℕ) : List ℕ :=
  listeners.erase f

/-- The constructor's listener registration
(`src/unnamed/part_001` line 15, `embedApi.js` line 24):
`window.addEventListener('message', this.handleMessage.bind(this))`.
`bound` is the fresh function object produced by `.bind(this)` —
`Function.prototype.bind` always returns a new function, distinct from
the `this.handleMessage` method reference. -/
def constructorAddListener (listeners : List ℕ) (bound : ℕ) : List ℕ :=
  jsAddEventListener listeners bound

/-- The listener removal performed by `RPC.destroy` / `EmbedApi.destroy`
(`src/unnamed/part_001` line 121, `embedApi.js` line 224):
`window.removeEventListener('message', this.handleMessage)` — it passes
the plain method reference, not the bound function the constructor
registered. -/
def destroyRemoveListener (listeners : List ℕ) (methodRef : ℕ) : List ℕ :=
  jsRemoveEventListener listeners methodRef

/-- One atom of the regular expression that
`SecurityUtils.validateOrigin` builds from an allowlist entry by
`allowed.replace(/\*`"`"`/g, '.*')`: a `*` becomes the regex `.*`
(any substring), a `.` stays the regex `.` (any single character,
since the replacement does not escape it), and any other
regex-literal character matches only itself.  The model covers
allowlist entries built from `*`, `.` and regex-literal characters
(letters, digits, `:`, `/`, `-`), which is every shape of origin
pattern; entries containing further regex metacharacters are outside
the model. -/
inductive PatTok where
  | star : PatTok
  | anyChar : PatTok
  | lit (c : Char) : PatTok

/-- Atoms of the regex the code builds from entry `e`:
`*` ↦ `.*`, `.` ↦ `.` (unescaped), other characters literal. -/
def tokensOf (e : String) : List PatTok :=
  e.data.map fun c =>
    if c = '*' then PatTok.star else if c = '.' then PatTok.anyChar else PatTok.lit c

/-- Atoms of the pattern as the claim reads it: `*` matches any
substring and **every** other character, `.` included, matches only
itself. -/
def claimTokensOf (e : String) : List PatTok :=
  e.data.map fun c => if c = '*' then PatTok.star else PatTok.lit c

/-- Anchored matching of a token list against a character list —
the effect of `new RegExp('^' + pattern + '$').test(origin)`.
A `star` tries every suffix of the remaining input. -/
def patMatch : List PatTok → List Char → Bool
  | [], s => s.isEmpty
  | .star :: ps, s => s.tails.any fun t => patMatch ps t
  | .anyChar :: ps, s =>
      match s with
      | [] => false
      | _ :: t => patMatch ps t
  | .lit c :: ps, s =>
      match s with
      | [] => false
      | d :: t => c == d && patMatch ps t

/-- Declarative anchored-matching relation: `star` absorbs any prefix
of the input, `anyChar` consumes exactly one arbitrary character,
`lit c` consumes exactly the character `c`. -/
inductive PatMatches : List PatTok → List Char → Prop where
  | nil : PatMatches [] []
  | starSkip {ps : List PatTok} {s : List Char} :
      PatMatches ps s → PatMatches (.star :: ps) s
  | starCons {ps : List PatTok} {s : List Char} {c : Char} :
      PatMatches (.star :: ps) s → PatMatches (.star :: ps) (c :: s)
  | anyc {ps : List PatTok} {s : List Char} {c : Char} :
      PatMatches ps s → PatMatches (.anyChar :: ps) (c :: s)
  | lit {ps : List PatTok} {s : List Char} {c : Char} :
      PatMatches ps s → PatMatches (.lit c :: ps) (c :: s)

/-- `SecurityUtils.validateOrigin` (`src/unnamed/part_003` lines 14-27):
accept everything when the allowlist contains the entry `"*"`;
otherwise accept when some entry equals the origin exactly, or
contains a `*` and its translated anchored regex matches the whole
origin. -/
def validateOrigin (origin : String) (allowedOrigins : List String) : Bool :=
  if allowedOrigins.contains "*" then true
  else allowedOrigins.any fun allowed =>
    if allowed == origin then true
    else if allowed.data.contains '*' then patMatch (tokensOf allowed) origin.data
    else false

/-- Acceptance as the claim states it (the spec's reading): identical
to `validateOrigin` except that the wildcard pattern is read with
every non-`*` character matching only itself. -/
def claimAccepts (origin : String) (allowedOrigins : List String) : Bool :=
  if allowedOrigins.contains "*" then true
  else allowedOrigins.any fun allowed =>
    if allowed == origin then true
    else if allowed.data.contains '*' then patMatch (claimTokensOf allowed) origin.data
    else false

/-- Rate limiter state: the closed-over `requests` map of
`SecurityUtils.createRateLimiter` — per origin, the recorded request
timestamps in insertion order. -/
def RLState : Type := List (String × List Int)

/-- The pruning pass at the top of every limiter check
(`src/unnamed/part_003` lines 180-186): keep only timestamps strictly
newer than `windowStart` and delete origins whose list becomes
empty. -/
def rlPrune (windowStart : Int) (st : RLState) : RLState :=
  (st.map fun p => (p.1, p.2.filter fun t => windowStart < t)).filter
    fun p => !p.2.isEmpty

/-- `requests.get(origin) || []`. -/
def rlGet (st : RLState) (origin : String) : List Int :=
  (st.lookup origin).getD []

/-- One invocation of the limiter closure returned by
`SecurityUtils.createRateLimiter(maxRequests, timeWindow)`
(`src/unnamed/part_003` lines 176-200) at time `now`: prune all
origins against `now - timeWindow`, reject (throw) if the origin's
remaining count has reached `maxRequests`, otherwise push `now` and
accept.  Returns the acceptance flag and the updated map; on a
rejection the map keeps only the prune's effect. -/
def rateCheck (maxRequests : Nat) (timeWindow : Int) (st : RLState)
    (origin : String) (now : Int) : Bool × RLState :=
  let pruned := rlPrune (now - timeWindow) st
  let originRequests := rlGet pruned origin
  if maxRequests ≤ originRequests.length then (false, pruned)
  else (true, assocSet pruned origin (originRequests ++ [now]))

/-- Run the limiter over a sequence of request times from one origin,
collecting each check's outcome. -/
def rlRun (maxRequests : Nat) (timeWindow : Int) (st : RLState)
    (origin : String) : List Int → List Bool × RLState
  | [] => ([], st)
  | t :: ts =>
      let step := rateCheck maxRequests timeWindow st origin t
      let rest := rlRun maxRequests timeWindow step.2 origin ts
      (step.1 :: rest.1, rest.2)

/-- An inbound `message` event as delivered to `handleMessage`:
sender origin, sender window handle (`event.source`), and raw
payload (`event.data`). -/
structure MsgEvent where
  origin : String
  source : ℕ
  data : JSValue

/-- A response frame sent while the inbound frame's fields are still
raw JavaScript values (the wire `id` is echoed verbatim, whatever its
type). -/
structure SendActionJ where
  target : ℕ
  id : JSValue
  result : Option JSValue
  error : Option String

/-- `type === 'rpc-request'`-style strict string comparison. -/
def isTypeTag : JSValue → String → Bool
  | .vStr s, t => s == t
  | _, _ => false

/-- `SecurityUtils.validatePostMessageData(data, { type: 'string',
id: v => typeof v === 'number' || typeof v === 'string' })`
(`src/unnamed/part_003` lines 149-168) as a Boolean: `true` when the
call returns normally, `false` when it throws.  It throws when the
payload is not a non-null object, when `data.type` is not a string,
or when `data.id` is neither a number nor a string. -/
def validShape : JSValue → Bool
  | .vObj fields =>
      (match (fields.lookup "type").getD .vUndefined with
        | .vStr _ => true
        | _ => false)
      && (match (fields.lookup "id").getD .vUndefined with
        | .vNum _ => true
        | .vStr _ => true
        | _ => false)
  | _ => false

/-- The argument spread `handler(...args)` on the raw `args` field:
arrays spread into their elements, strings into their characters, and
any other value throws a `TypeError` (whose exact engine wording is
abstracted) that the surrounding `try` converts into an error
response. -/
def spreadArgs : JSValue → Except String (List JSValue)
  | .vArr xs => .ok xs
  | .vStr s => .ok (s.data.map fun c => .vStr (String.mk [c]))
  | v => .error (jsToDisplayString v ++ " is not iterable")

/-- `RPC.handleRequest` on raw frame fields
(`src/unnamed/part_001` lines 34-47, `embedApi.js` lines 875-888):
`exposedMethods.has(method)` is `false` for any non-string `method`,
producing the not-found response with the stringified method name;
otherwise the handler runs inside `try`/`catch` and its outcome (or
the spread failure) becomes the response.  Every response targets
`event.source`. -/
def dispatchRequestJ (methods : List (String × Handler)) (source : ℕ)
    (idv methodv argsv : JSValue) : SendActionJ :=
  match (match methodv with
          | .vStr m => methods.lookup m
          | _ => none) with
  | none => ⟨source, idv, none,
      some ("Method '" ++ jsToDisplayString methodv ++ "' not found")⟩
  | some h =>
      match spreadArgs argsv with
      | .error msg => ⟨source, idv, none, some msg⟩
      | .ok xs =>
          match h xs with
          | .ok r => ⟨source, idv, some r, none⟩
          | .error e => ⟨source, idv, none, some e⟩

/-- The security configuration the enhanced `RPC` constructor derives
from its options (`embedApi.js` lines 806-810): `allowedOrigins`
defaults to `['*']`; the rate limiter exists unless `enableRateLimit`
is exactly `false` (defaults 100 requests / 60000 ms); message
validation is on unless `validateMessages` is exactly `false`. -/
structure EnhConfig where
  allowedOrigins : List String
  rateLimit : Option (Nat × Int)
  validateMessages : Bool

/-- Derive the security configuration from a constructor options
object. -/
def mkEnhConfig (opts : RpcOptions) : EnhConfig where
  allowedOrigins := opts.allowedOrigins.getD ["*"]
  rateLimit :=
    if opts.enableRateLimit = some false then none
    else some (opts.maxRequests.getD 100, (opts.timeWindow.getD 60000 : Int))
  validateMessages := ¬ (opts.validateMessages = some false)

/-- Everything one invocation of the enhanced `handleMessage` does:
frames sent, futures settled (keyed by the string correlation ids the
enhanced `call` registers), the updated pending set and limiter map,
and whether an exception reached the outer catch-all (where it is
logged — it never propagates out of the listener). -/
structure EnhOutcome where
  sends : List SendActionJ
  settles : List (String × SettleKind)
  pending : List String
  limiter : RLState
  caughtByOuter : Bool

/-- The enhanced `RPC.handleMessage` (`embedApi.js` lines 829-870).
In order: origin validation (silent drop on failure), rate limiting
(the limiter's throw is caught by the inner `try`, logged, dropped),
shape validation (its throw likewise caught and dropped), then
destructuring — which throws on a `null`/`undefined` payload, reaching
the outer catch-all (only possible when validation is disabled) —
then dispatch on `type`.  Response frames settle a pending future only
when the raw `id` is a string present in the string-keyed pending
map. -/
def enhancedHandleMessage (cfg : EnhConfig) (methods : List (String × Handler))
    (pending : List String) (lim : RLState) (ev : MsgEvent) (now : Int) :
    EnhOutcome :=
  if !(validateOrigin ev.origin cfg.allowedOrigins) then
    ⟨[], [], pending, lim, false⟩
  else
    let rl := match cfg.rateLimit with
      | none => (true, lim)
      | some (maxR, tw) => rateCheck maxR tw lim ev.origin now
    if !rl.1 then ⟨[], [], pending, rl.2, false⟩
    else if cfg.validateMessages && !(validShape ev.data) then
      ⟨[], [], pending, rl.2, false⟩
    else if isNullish ev.data then
      ⟨[], [], pending, rl.2, true⟩
    else
      let ty := getField ev.data "type"
      if isTypeTag ty "rpc-request" then
        ⟨[dispatchRequestJ methods ev.source (getField ev.data "id")
            (getField ev.data "method") (getField ev.data "args")],
          [], pending, rl.2, false⟩
      else if isTypeTag ty "rpc-response" then
        match getField ev.data "id" with
        | .vStr s =>
            if pending.contains s then
              ⟨[], [(s, if jsTruthy (getField ev.data "error")
                        then .rejectedByError else .fulfilled)],
                pending.erase s, rl.2, false⟩
            else ⟨[], [], pending, rl.2, false⟩
        | _ => ⟨[], [], pending, rl.2, false⟩
      else ⟨[], [], pending, rl.2, false⟩

/-- The simple `RPC.handleMessage` (`src/unnamed/part_001` lines
21-29).  There is no catch-all: destructuring a `null`/`undefined`
payload throws a `TypeError` that propagates out of the message
listener (modelled as `Except.error`).  Otherwise the frame is
dispatched on its `type` field; frames with any other `type` are
ignored.  The pending map is keyed by the numeric ids the simple
`call` registers. -/
def simpleHandleMessage (methods : List (String × Handler))
    (pending : List Int) (ev : MsgEvent) :
    Except Unit (List SendActionJ × List (Int × SettleKind) × List Int) :=
  if isNullish ev.data then .error ()
  else
    let ty := getField ev.data "type"
    if isTypeTag ty "rpc-request" then
      .ok ([dispatchRequestJ methods ev.source (getField ev.data "id")
            (getField ev.data "method") (getField ev.data "args")],
        [], pending)
    else if isTypeTag ty "rpc-response" then
      match getField ev.data "id" with
      | .vNum n =>
          if pending.contains n then
            .ok ([], [(n, if jsTruthy (getField ev.data "error")
                          then .rejectedByError else .fulfilled)],
              pending.erase n)
          else .ok ([], [], pending)
      | _ => .ok ([], [], pending)
    else .ok ([], [], pending)

/-- The delay sequence produced by `createRetryHandler`
(`src/unnamed/part_002` lines 334-350): the first wait is
`initialDelay`; after each wait the running delay becomes
`min(delay * backoffMultiplier, maxDelay)`. -/
def delaySeq (initialDelay maxDelay mult : Nat) : Nat → Nat
  | 0 => initialDelay
  | i + 1 => min (delaySeq initialDelay maxDelay mult i * mult) maxDelay

/-- The retry loop of `MonitoringUtils.createRetryHandler`
(`src/unnamed/part_002` lines 332-355).  `op i` is the outcome of the
`(i+1)`-th invocation of `operation`; `fuel` is `maxRetries - attempt`
(the loop runs while `attempt <= maxRetries`, and `attempt ===
maxRetries` is tested before `shouldRetry`).  Returns the final
outcome, the number of invocations made, and the list of delays
waited, in order. -/
def retryAux {α β : Type} (op : Nat → Except β α) (sr : β → Nat → Bool)
    (mult maxDelay : Nat) :
    Nat → Nat → Nat → Except β α × Nat × List Nat
  | attempt, _delay, 0 =>
      match op attempt with
      | .ok r => (.ok r, attempt + 1, [])
      | .error e => (.error e, attempt + 1, [])
  | attempt, delay, f + 1 =>
      match op attempt with
      | .ok r => (.ok r, attempt + 1, [])
      | .error e =>
          if !sr e attempt then (.error e, attempt + 1, [])
          else
            let rest := retryAux op sr mult maxDelay (attempt + 1)
              (min (delay * mult) maxDelay) f
            (rest.1, rest.2.1, delay :: rest.2.2)

/-- The handler returned by
`MonitoringUtils.createRetryHandler({maxRetries, initialDelay,
maxDelay, backoffMultiplier, shouldRetry})`, applied to an operation
(source defaults: `maxRetries` 3, `initialDelay` 1000, `maxDelay`
10000, `backoffMultiplier` 2, `shouldRetry` constantly true). -/
def retryRun {α β : Type} (maxRetries initialDelay maxDelay mult : Nat)
    (sr : β → Nat → Bool) (op : Nat → Except β α) :
    Except β α × Nat × List Nat :=
  retryAux op sr mult maxDelay 0 initialDelay maxRetries

theorem settleCount_append (id : ℕ) (l1 l2 : List (ℕ × SettleKind)) :
    settleCount id (l1 ++ l2) = settleCount id l1 + settleCount id l2 := by
  simp [settleCount, List.filter_append]

theorem settleCount_nil (id : ℕ) : settleCount id [] = 0 := rfl

theorem settleCount_singleton (id : ℕ) (a : ℕ × SettleKind) :
    settleCount id [a] = if a.1 = id then 1 else 0 := by
  by_cases h : a.1 = id <;> simp [settleCount, List.filter_cons, h]

theorem rpcStep_of_settle_none {e : RpcEvent} {p : Finset ℕ}
    (h : (rpcStep e p).2 = none) : (rpcStep e p).1 = p := by
  cases e with
  | response i err =>
      by_cases hm : i ∈ p <;> simp [rpcStep, handleResponse, hm] at h ⊢
  | deadline i =>
      by_cases hm : i ∈ p <;> simp [rpcStep, timeoutFire, hm] at h ⊢

theorem rpcStep_of_settle_some {e : RpcEvent} {p : Finset ℕ}
    {a : ℕ × SettleKind} (h : (rpcStep e p).2 = some a) :
    a.1 ∈ p ∧ (rpcStep e p).1 = p.erase a.1 := by
  cases e with
  | response i err =>
      by_cases hm : i ∈ p <;> simp [rpcStep, handleResponse, hm] at h ⊢
      · cases h; simpa using hm
  | deadline i =>
      by_cases hm : i ∈ p <;> simp [rpcStep, timeoutFire, hm] at h ⊢
      · cases h; simpa using hm

theorem settleCount_runEvents_of_not_mem (id : ℕ) :
    ∀ (evs : List RpcEvent) (p : Finset ℕ), id ∉ p →
      settleCount id (runEvents evs p).2 = 0 := by
  intro evs
  induction evs with
  | nil => intro p _; simp [runEvents, settleCount]
  | cons e es ih =>
      intro p hid
      show settleCount id ((rpcStep e p).2.toList ++ (runEvents es (rpcStep e p).1).2) = 0
      rw [settleCount_append]
      rcases ha : (rpcStep e p).2 with _ | a
      · rw [rpcStep_of_settle_none ha]
        rw [show (none : Option (ℕ × SettleKind)).toList = [] from rfl]
        rw [settleCount_nil, ih p hid]
      · have hmem := rpcStep_of_settle_some ha
        have hne : a.1 ≠ id := fun hEq => hid (hEq ▸ hmem.1)
        have h0 : settleCount id (runEvents es (rpcStep e p).1).2 = 0 := by
          refine ih _ ?_
          rw [hmem.2]
          exact fun hc => hid (Finset.mem_of_mem_erase hc)
        rw [show (some a).toList = [a] from rfl, settleCount_singleton,
          h0, if_neg hne]

theorem settleCount_runEvents_le_one (id : ℕ) :
    ∀ (evs : List RpcEvent) (p : Finset ℕ),
      settleCount id (runEvents evs p).2 ≤ 1 := by
  intro evs
  induction evs with
  | nil => intro p; simp [runEvents, settleCount]
  | cons e es ih =>
      intro p
      show settleCount id ((rpcStep e p).2.toList ++ (runEvents es (rpcStep e p).1).2) ≤ 1
      rw [settleCount_append]
      rcases ha : (rpcStep e p).2 with _ | a
      · rw [show (none : Option (ℕ × SettleKind)).toList = [] from rfl,
          settleCount_nil]
        simpa using ih (rpcStep e p).1
      · have hmem := rpcStep_of_settle_some ha
        rw [show (some a).toList = [a] from rfl, settleCount_singleton]
        by_cases hEq : a.1 = id
        · have h0 : settleCount id (runEvents es (rpcStep e p).1).2 = 0 := by
            refine settleCount_runEvents_of_not_mem id es _ ?_
            rw [hmem.2, hEq]
            exact Finset.not_mem_erase id p
          rw [h0, if_pos hEq]
        · rw [if_neg hEq]
          simpa using ih (rpcStep e p).1

/-- C1. For every endpoint, each pending call is settled at most once:
a response whose correlation id matches no pending entry is ignored
without side effects; a matching response settles exactly that call,
removing its entry; over any sequence of response/deadline events —
including a late response after a timeout already settled the call —
a given correlation id is settled at most once, and a response
arriving after the timeout callback fired for that id performs no
settlement. -/
theorem rpc_at_most_once_settlement (pending : Finset ℕ) (id : ℕ)
    (err : Option String) (events : List RpcEvent) :
    (id ∉ pending → handleResponse pending id err = (pending, none))
    ∧ (id ∈ pending →
        handleResponse pending id err =
          (pending.erase id,
            some (id, if errTruthy err then .rejectedByError else .fulfilled))
        ∧ id ∉ (handleResponse pending id err).1)
    ∧ settleCount id (runEvents events pending).2 ≤ 1
    ∧ (id ∈ pending →
        handleResponse (timeoutFire pending id).1 id err
          = ((timeoutFire pending id).1, none)) := by
  refine ⟨fun h => by simp [handleResponse, h], fun h => ?_, ?_, fun h => ?_⟩
  · constructor
    · simp [handleResponse, h]
    · simp [handleResponse, h]
  · exact settleCount_runEvents_le_one id events pending
  · have : id ∉ (timeoutFire pending id).1 := by
      simp [timeoutFire, h]
    simp [handleResponse, this]

/-- Witness for C1 at concrete inputs: a matching response on the
pending set `{1}` settles call 1; an unknown id on the empty set is a
no-op; a trace firing the deadline for 1 and then delivering a late
response settles at most once; and the late response after the
timeout performs no settlement. -/
theorem rpc_at_most_once_settlement_witness :
    handleResponse {1} 1 none = (({1} : Finset ℕ).erase 1, some (1, .fulfilled))
    ∧ 1 ∉ (handleResponse {1} 1 none).1
    ∧ handleResponse ∅ 1 none = (∅, none)
    ∧ settleCount 1 (runEvents [.deadline 1, .response 1 none] {1}).2 ≤ 1
    ∧ handleResponse (timeoutFire {1} 1).1 1 none
        = ((timeoutFire {1} 1).1, none) := by
  have h := rpc_at_most_once_settlement {1} 1 none [.deadline 1, .response 1 none]
  have h0 := rpc_at_most_once_settlement ∅ 1 none []
  have hmem : (1 : ℕ) ∈ ({1} : Finset ℕ) := by decide
  have hnot : (1 : ℕ) ∉ (∅ : Finset ℕ) := by decide
  exact ⟨(h.2.1 hmem).1, (h.2.1 hmem).2, h0.1 hnot, h.2.2.1, h.2.2.2 hmem⟩

/-- C2 counterexample. The claim asserts that *every* endpoint drops a
malformed payload without letting an exception escape the
message-receive callback.  The simple `RPC.handleMessage`
(`src/unnamed/part_001` line 22) destructures `event.data` with no
surrounding catch, so a `null` payload — malformed by the claim's own
definition ("not an object") — throws a `TypeError` out of the
listener. -/
theorem simple_null_payload_throws :
    simpleHandleMessage [] [] ⟨"https://a.example", 2, .vNull⟩ = .error () := rfl

/-- C2 (amended). The enhanced endpoint drops any message failing its
shape validation (payload not a non-null object, `type` not a string,
or `id` neither number nor string) silently: no frame is sent, no
future settled, the pending set is untouched, and no exception even
reaches the outer catch-all.  The simple endpoint has no catch-all: a
`null`/`undefined` payload throws out of its listener, while a
non-nullish payload without a recognized `type` tag is ignored
silently. -/
theorem malformed_inbound_handling (cfg : EnhConfig)
    (methods : List (String × Handler)) (pending : List String)
    (pendingS : List Int) (lim : RLState) (ev : MsgEvent) (now : Int) :
    (cfg.validateMessages = true → validShape ev.data = false →
      (enhancedHandleMessage cfg methods pending lim ev now).sends = []
      ∧ (enhancedHandleMessage cfg methods pending lim ev now).settles = []
      ∧ (enhancedHandleMessage cfg methods pending lim ev now).pending = pending
      ∧ (enhancedHandleMessage cfg methods pending lim ev now).caughtByOuter = false)
    ∧ (isNullish ev.data = true →
        simpleHandleMessage methods pendingS ev = .error ())
    ∧ (isNullish ev.data = false →
        isTypeTag (getField ev.data "type") "rpc-request" = false →
        isTypeTag (getField ev.data "type") "rpc-response" = false →
        simpleHandleMessage methods pendingS ev = .ok ([], [], pendingS)) := by
  refine ⟨fun hv hs => ?_, fun hn => ?_, fun hn hq hp => ?_⟩
  · unfold enhancedHandleMessage
    split_ifs with h1 h2 h3 h4 <;> simp_all
  · simp [simpleHandleMessage, hn]
  · simp [simpleHandleMessage, hn, hq, hp]

/-- Witness for C2 at concrete inputs: a string payload `"junk"`
(malformed: not an object) is dropped by the enhanced endpoint under
the default configuration and ignored by the simple endpoint, and a
`null` payload makes the simple endpoint throw. -/
theorem malformed_inbound_handling_witness :
    ((enhancedHandleMessage (mkEnhConfig {}) [] [] [] ⟨"o", 2, .vStr "junk"⟩ 0).sends = []
      ∧ (enhancedHandleMessage (mkEnhConfig {}) [] [] [] ⟨"o", 2, .vStr "junk"⟩ 0).settles = []
      ∧ (enhancedHandleMessage (mkEnhConfig {}) [] [] [] ⟨"o", 2, .vStr "junk"⟩ 0).pending = []
      ∧ (enhancedHandleMessage (mkEnhConfig {}) [] [] [] ⟨"o", 2, .vStr "junk"⟩ 0).caughtByOuter = false)
    ∧ simpleHandleMessage [] [] ⟨"o", 2, .vNull⟩ = .error ()
    ∧ simpleHandleMessage [] [] ⟨"o", 2, .vStr "junk"⟩ = .ok ([], [], []) := by
  have h1 := malformed_inbound_handling (mkEnhConfig {}) [] [] [] []
    ⟨"o", 2, .vStr "junk"⟩ 0
  have h2 := malformed_inbound_handling (mkEnhConfig {}) [] [] [] []
    ⟨"o", 2, .vNull⟩ 0
  exact ⟨h1.1 (by decide) rfl, h2.2.1 rfl, h1.2.2 rfl rfl rfl⟩

theorem lookup_assocSet {α β : Type} [BEq α] [LawfulBEq α]
    (l : List (α × β)) (k : α) (v : β) : (assocSet l k v).lookup k = some v := by
  induction l with
  | nil => simp [assocSet, List.lookup]
  | cons p rest ih =>
      obtain ⟨a, b⟩ := p
      by_cases h : a == k
      · simp [assocSet, h, List.lookup]
      · have h2 : (k == a) = false := by
          rw [beq_eq_false_iff_ne]
          rw [Bool.not_eq_true, beq_eq_false_iff_ne] at h
          exact fun hk => h hk.symm
        simp [assocSet, h, List.lookup, h2, ih]

/-- C3 counterexample. On `EmbedApi`, the built-in `ping` branch of
`handleRequest` (`embedApi.js` lines 58-61) runs *before* the
`exposedMethods` lookup, so a user handler exposed under `ping` (here
one answering `"other"`) is never invoked: the response still carries
the built-in `"pong"`, not the user handler's `"other"`. -/
theorem embed_ping_override_counterexample :
    embedHandleRequest
        ⟨1, expose [] "ping" (fun _ => .ok (.vStr "other")), .vNull⟩
        ⟨2, 5, "ping", []⟩
      = ⟨1, 5, some (.vStr "pong"), none⟩
    ∧ (fun (_ : List JSValue) => (.ok (.vStr "other") : Except String JSValue)) []
        = .ok (.vStr "other")
    ∧ some (JSValue.vStr "pong") ≠ some (JSValue.vStr "other") := by
  refine ⟨rfl, rfl, ?_⟩
  intro h
  simp only [Option.some.injEq, JSValue.vStr.injEq] at h
  exact absurd h (by decide)

/-- C3 (amended). A well-formed request for `ping` is answered with
`"pong"` on both serve paths.  On the `RPC` endpoint — where `ping`
exists only because `FrameManager.setupRPC` registers it via
`expose` — a later `expose('ping', userHandler)` overwrites the
registry entry (`Map.set`, last registration wins), so the request
invokes the user handler.  On `EmbedApi`, however, the built-in
`ping` branch takes precedence and exposing `ping` does *not*
override it: the response is `"pong"` whatever the registry holds. -/
theorem ping_dispatch (api : EmbedApiState) (src id : ℕ)
    (args : List JSValue) (methods : List (String × Handler))
    (builtin user : Handler) :
    embedHandleRequest api ⟨src, id, "ping", args⟩
      = ⟨api.parentWindow, id, some (.vStr "pong"), none⟩
    ∧ rpcHandleRequest (expose methods "ping" (fun _ => .ok (.vStr "pong")))
        ⟨src, id, "ping", args⟩
      = ⟨src, id, some (.vStr "pong"), none⟩
    ∧ rpcHandleRequest (expose (expose methods "ping" builtin) "ping" user)
        ⟨src, id, "ping", args⟩
      = (match user args with
          | .ok r => ⟨src, id, some r, none⟩
          | .error e => ⟨src, id, none, some e⟩) := by
  refine ⟨rfl, ?_, ?_⟩
  · simp [rpcHandleRequest, expose, lookup_assocSet]
  · rcases hu : user args with r | e <;>
      simp [rpcHandleRequest, expose, lookup_assocSet, hu]

/-- C4 counterexample. `EmbedApi.sendResponse` (`embedApi.js` lines
102-109) posts every response to the statically captured
`this.parentWindow`, ignoring the inbound event's source: an
`EmbedApi` with parent window 1 receiving a request whose event source
is window 2 answers window 1, not window 2 as the claim requires. -/
theorem embed_response_target_counterexample :
    (embedHandleRequest ⟨1, [], .vNull⟩ ⟨2, 7, "ping", []⟩).target = 1
    ∧ (1 : ℕ) ≠ 2 := ⟨rfl, by decide⟩

/-- C4 (amended). The `RPC` request handlers (simple and enhanced)
send the response to the inbound event's source window
(`this.sendResponse(event.source, ...)`); `EmbedApi`, by contrast,
sends every response to its statically configured parent window,
whatever the event's source was. -/
theorem response_target (methods : List (String × Handler))
    (api : EmbedApiState) (ev : ReqEvent) :
    (rpcHandleRequest methods ev).target = ev.source
    ∧ (embedHandleRequest api ev).target = api.parentWindow := by
  constructor
  · cases hl : methods.lookup ev.method with
    | none => simp [rpcHandleRequest, hl]
    | some h =>
        cases hr : h ev.args with
        | ok r => simp [rpcHandleRequest, hl, hr]
        | error e => simp [rpcHandleRequest, hl, hr]
  · unfold embedHandleRequest
    split_ifs
    · rfl
    · rfl
    · cases hl : api.exposedMethods.lookup ev.method with
      | none => simp [hl]
      | some h =>
          cases hr : h ev.args with
          | ok r => simp [hl, hr]
          | error e => simp [hl, hr]

/-- The rejection message built by the timeout callback of `RPC.call`
(`src/unnamed/part_001` line 97, `embedApi.js` line 952). -/
def timeoutMessage (method : String) : String :=
  "RPC call '" ++ method ++ "' timed out"

/-- C5 counterexample. The claim says the timeout ceiling is
configurable per endpoint via a `callTimeoutMs` option; but the delay
`RPC.call` passes to `setTimeout` is the literal `10000` regardless of
options — an endpoint constructed with `callTimeoutMs: 50` still
schedules a 10000 ms deadline. -/
theorem call_timeout_option_counterexample :
    callTimeoutDelay { callTimeoutMs := some 50 } = 10000
    ∧ (10000 : ℕ) ≠ 50 := ⟨rfl, by decide⟩

/-- C5 (amended). `call` registers a fresh pending entry and
schedules a timeout of exactly 10,000 ms — fixed, not configurable by
any option; when the deadline fires with the entry still pending, the
entry is removed and the call is rejected with a timeout error whose
message names the method. -/
theorem call_fixed_timeout (opts : RpcOptions) (st : SimpleRpcState)
    (m : String) (args : List JSValue)
    (hfresh : ∀ j ∈ st.pending, j ≤ st.messageId) :
    (callStep opts st m args).1.pending
        = insert (callStep opts st m args).2.1.id st.pending
    ∧ (callStep opts st m args).2.1.id ∉ st.pending
    ∧ (callStep opts st m args).2.1.method = m
    ∧ (callStep opts st m args).2.2 = 10000
    ∧ timeoutFire (callStep opts st m args).1.pending
        (callStep opts st m args).2.1.id
        = (st.pending,
            some ((callStep opts st m args).2.1.id, .rejectedByTimeout))
    ∧ m.data <:+: (timeoutMessage m).data := by
  have hid : (callStep opts st m args).2.1.id = st.messageId + 1 := rfl
  have hnot : (callStep opts st m args).2.1.id ∉ st.pending := by
    rw [hid]
    intro hc
    exact absurd (hfresh _ hc) (by omega)
  refine ⟨rfl, hnot, rfl, rfl, ?_, ?_⟩
  · have hmem : (callStep opts st m args).2.1.id
        ∈ (callStep opts st m args).1.pending := by
      show (callStep opts st m args).2.1.id
        ∈ insert (st.messageId + 1) st.pending
      rw [hid]
      exact Finset.mem_insert_self _ _
    rw [timeoutFire, if_pos hmem]
    have : ((callStep opts st m args).1.pending).erase
        (callStep opts st m args).2.1.id = st.pending := by
      show (insert (st.messageId + 1) st.pending).erase (st.messageId + 1)
        = st.pending
      exact Finset.erase_insert (hid ▸ hnot)
    rw [this]
  · refine ⟨"RPC call '".data, "' timed out".data, ?_⟩
    rw [timeoutMessage, String.data_append, String.data_append]

/-- Witness for C5 at a concrete input: from the initial state, a
call to `"foo"` registers id 1 with a 10,000 ms deadline, and the
deadline firing removes and rejects it. -/
theorem call_fixed_timeout_witness :
    (callStep {} ⟨0, ∅, []⟩ "foo" []).1.pending
        = insert (callStep {} ⟨0, ∅, []⟩ "foo" []).2.1.id ∅
    ∧ (callStep {} ⟨0, ∅, []⟩ "foo" []).2.1.id ∉ (∅ : Finset ℕ)
    ∧ (callStep {} ⟨0, ∅, []⟩ "foo" []).2.1.method = "foo"
    ∧ (callStep {} ⟨0, ∅, []⟩ "foo" []).2.2 = 10000
    ∧ timeoutFire (callStep {} ⟨0, ∅, []⟩ "foo" []).1.pending
        (callStep {} ⟨0, ∅, []⟩ "foo" []).2.1.id
        = (∅, some ((callStep {} ⟨0, ∅, []⟩ "foo" []).2.1.id, .rejectedByTimeout))
    ∧ "foo".data <:+: (timeoutMessage "foo").data :=
  call_fixed_timeout {} ⟨0, ∅, []⟩ "foo" [] (by simp)

/-- C6 counterexample. After `call` registers pending call 1 and
`destroy()` clears the pending map, the 10-second deadline eventually
fires — but the callback's `pendingRequests.has(id)` guard fails, so
it performs *no* settlement: the claim's "the call is settled by the
timeout rejection" is false; the future is never settled at all. -/
theorem destroy_timeout_counterexample :
    (destroySimpleRpc (callStep {} ⟨0, ∅, []⟩ "foo" []).1).2 = []
    ∧ timeoutFire
        (destroySimpleRpc (callStep {} ⟨0, ∅, []⟩ "foo" []).1).1.pending 1
        = (∅, none) := by
  refine ⟨rfl, ?_⟩
  simp [destroySimpleRpc, timeoutFire]

/-- C6 (amended). `destroy()` clears all registered handlers and
forgets all pending calls without rejecting their futures at destroy
time; when a still-held call's timeout deadline later fires, the
callback finds no pending entry and performs no settlement — the
future is never settled by this endpoint, neither at destroy time nor
at the deadline. -/
theorem destroy_abandons_pending (st : SimpleRpcState) (id : ℕ) :
    (destroySimpleRpc st).1.pending = ∅
    ∧ (destroySimpleRpc st).1.methods = []
    ∧ (destroySimpleRpc st).2 = []
    ∧ timeoutFire (destroySimpleRpc st).1.pending id
        = ((destroySimpleRpc st).1.pending, none) := by
  refine ⟨rfl, rfl, rfl, ?_⟩
  simp [destroySimpleRpc, timeoutFire]

theorem contains_iff_mem {α : Type} [BEq α] [LawfulBEq α] (l : List α) (a : α) :
    l.contains a = true ↔ a ∈ l := by
  simp [List.contains, List.elem_iff]

theorem starMatches_suffix {ps : List PatTok} :
    ∀ (s : List Char), PatMatches (.star :: ps) s →
      ∃ t, t <:+ s ∧ PatMatches ps t := by
  intro s
  induction s with
  | nil =>
      intro h
      cases h with
      | starSkip h' => exact ⟨[], List.suffix_refl _, h'⟩
  | cons c s ih =>
      intro h
      cases h with
      | starSkip h' => exact ⟨c :: s, List.suffix_refl _, h'⟩
      | starCons h' =>
          obtain ⟨t, hsuf, hm⟩ := ih h'
          exact ⟨t, hsuf.trans (List.suffix_cons c s), hm⟩

theorem starMatches_of_suffix {ps : List PatTok} :
    ∀ (pre t : List Char), PatMatches ps t →
      PatMatches (.star :: ps) (pre ++ t) := by
  intro pre
  induction pre with
  | nil => intro t hm; exact .starSkip hm
  | cons c pre ihp => intro t hm; exact .starCons (ihp t hm)

theorem patMatch_iff : ∀ (ps : List PatTok) (s : List Char),
    patMatch ps s = true ↔ PatMatches ps s := by
  intro ps
  induction ps with
  | nil =>
      intro s
      constructor
      · intro h
        have hs : s = [] := by simpa [patMatch] using h
        subst hs
        exact .nil
      · intro h
        cases h
        simp [patMatch]
  | cons p ps ih =>
      cases p with
      | star =>
          intro s
          rw [show patMatch (.star :: ps) s
              = s.tails.any (fun t => patMatch ps t) from rfl]
          rw [List.any_eq_true]
          constructor
          · rintro ⟨t, ht, hm⟩
            obtain ⟨pre, hpre⟩ := (List.mem_tails _ _).mp ht
            subst hpre
            exact starMatches_of_suffix pre t ((ih t).mp hm)
          · intro h
            obtain ⟨t, hsuf, hm⟩ := starMatches_suffix s h
            exact ⟨t, (List.mem_tails _ _).mpr hsuf, (ih t).mpr hm⟩
      | anyChar =>
          intro s
          cases s with
          | nil =>
              constructor
              · intro h; exact absurd h (by simp [patMatch])
              · intro h; cases h
          | cons c t =>
              rw [show patMatch (.anyChar :: ps) (c :: t) = patMatch ps t from rfl]
              constructor
              · intro h; exact .anyc ((ih t).mp h)
              · intro h; cases h with | anyc h' => exact (ih t).mpr h'
      | lit c =>
          intro s
          cases s with
          | nil =>
              constructor
              · intro h; exact absurd h (by simp [patMatch])
              · intro h; cases h
          | cons d t =>
              rw [show patMatch (.lit c :: ps) (d :: t)
                  = (c == d && patMatch ps t) from rfl]
              constructor
              · intro h
                rw [Bool.and_eq_true, beq_iff_eq] at h
                obtain ⟨hc, hm⟩ := h
                subst hc
                exact .lit ((ih t).mp hm)
              · intro h
                cases h with
                | lit h' => simp [beq_self_eq_true, (ih t).mpr h']

/-- C7 counterexample. The claim reads the wildcard pattern with every
non-`*` character matching only itself; but `validateOrigin` builds
its regex without escaping `.`, so `.` matches any character: with
allowlist `["*.example"]`, the code accepts the origin `"aXexample"`
even though no entry equals it and the claim's reading of the pattern
(`*` any substring, `.` only a literal dot) does not match it. -/
theorem validate_origin_dot_counterexample :
    validateOrigin "aXexample" ["*.example"] = true
    ∧ ("*.example" : String) ≠ "aXexample"
    ∧ "*" ∉ (["*.example"] : List String)
    ∧ '*' ∈ ("*.example" : String).data
    ∧ claimAccepts "aXexample" ["*.example"] = false
    ∧ ¬ PatMatches (claimTokensOf "*.example") ("aXexample" : String).data := by
  refine ⟨by decide, by decide, by decide, by decide, by decide, ?_⟩
  intro h
  have hb := (patMatch_iff (claimTokensOf "*.example")
    ("aXexample" : String).data).mpr h
  exact absurd hb (by decide)

/-- C7 (amended). `validateOrigin` accepts every origin when the
allowlist contains the entry `"*"`; otherwise it accepts an origin iff
some entry equals it exactly, or the entry contains `'*'` and — read
as an anchored pattern in which `*` matches any substring, `.`
(unescaped in the regex translation) matches any single character, and
every other character matches only itself — matches the entire origin
string. -/
theorem validate_origin_spec (origin : String) (allowed : List String) :
    validateOrigin origin allowed = true ↔
      ("*" ∈ allowed
        ∨ ∃ a ∈ allowed, a = origin
            ∨ ('*' ∈ a.data ∧ PatMatches (tokensOf a) origin.data)) := by
  unfold validateOrigin
  by_cases hstar : "*" ∈ allowed
  · simp [contains_iff_mem, hstar]
  · rw [if_neg (by simpa [contains_iff_mem] using hstar)]
    rw [List.any_eq_true]
    constructor
    · rintro ⟨a, ha, hf⟩
      refine Or.inr ⟨a, ha, ?_⟩
      by_cases he : a == origin
      · exact Or.inl (by simpa using he)
      · rw [if_neg he] at hf
        by_cases hw : a.data.contains '*'
        · rw [if_pos hw] at hf
          exact Or.inr ⟨by simpa [contains_iff_mem] using hw,
            (patMatch_iff _ _).mp hf⟩
        · rw [if_neg hw] at hf
          exact absurd hf (by simp)
    · rintro (h | ⟨a, ha, he | ⟨hw, hm⟩⟩)
      · exact absurd h hstar
      · subst he
        exact ⟨a, ha, by simp⟩
      · refine ⟨a, ha, ?_⟩
        by_cases he : a == origin
        · simp [he]
        · rw [if_neg he, if_pos (by simpa [contains_iff_mem] using hw)]
          exact (patMatch_iff _ _).mpr hm

/-- The limiter map holding exactly the timestamps `ts` for origin `o`
(the map drops origins with no timestamps, so the empty list is the
empty map). -/
def rlStateOf (o : String) : List Int → RLState
  | [] => []
  | ts => [(o, ts)]

theorem rlPrune_keep_all (ws : Int) (o : String) (ts : List Int)
    (h : ∀ s ∈ ts, ws < s) :
    rlPrune ws (rlStateOf o ts) = rlStateOf o ts := by
  cases ts with
  | nil => rfl
  | cons a rest =>
      have hf : (a :: rest).filter (fun s => decide (ws < s)) = a :: rest :=
        List.filter_eq_self.mpr fun x hx => decide_eq_true (h x hx)
      simp [rlPrune, rlStateOf, hf]

theorem rlPrune_drop_all (ws : Int) (o : String) (ts : List Int)
    (h : ∀ s ∈ ts, s ≤ ws) :
    rlPrune ws (rlStateOf o ts) = [] := by
  cases ts with
  | nil => rfl
  | cons a rest =>
      have hf : (a :: rest).filter (fun s => decide (ws < s)) = [] := by
        rw [List.filter_eq_nil_iff]
        intro x hx
        simpa using not_lt.mpr (h x hx)
      simp [rlPrune, rlStateOf, hf]

theorem rlGet_stateOf (o : String) (ts : List Int) :
    rlGet (rlStateOf o ts) o = ts := by
  cases ts with
  | nil => rfl
  | cons a rest => simp [rlGet, rlStateOf, List.lookup]

theorem rateCheck_accept_step (maxR : Nat) (w : Int) (o : String)
    (ts : List Int) (t : Int) (hin : ∀ s ∈ ts, t - w < s)
    (hlen : ts.length < maxR) :
    rateCheck maxR w (rlStateOf o ts) o t = (true, rlStateOf o (ts ++ [t])) := by
  have hp := rlPrune_keep_all (t - w) o ts hin
  simp only [rateCheck, hp, rlGet_stateOf]
  rw [if_neg (by omega : ¬ maxR ≤ ts.length)]
  cases ts with
  | nil => rfl
  | cons a rest => simp [rlStateOf, assocSet]

theorem rateCheck_reject_step (maxR : Nat) (w : Int) (o : String)
    (ts : List Int) (t : Int) (hin : ∀ s ∈ ts, t - w < s)
    (hlen : maxR ≤ ts.length) :
    rateCheck maxR w (rlStateOf o ts) o t = (false, rlStateOf o ts) := by
  have hp := rlPrune_keep_all (t - w) o ts hin
  simp only [rateCheck, hp, rlGet_stateOf]
  rw [if_pos hlen]

theorem rateCheck_expired_step (maxR : Nat) (w : Int) (o : String)
    (ts : List Int) (t : Int) (hout : ∀ s ∈ ts, s ≤ t - w)
    (hpos : 0 < maxR) :
    rateCheck maxR w (rlStateOf o ts) o t = (true, rlStateOf o [t]) := by
  have hp := rlPrune_drop_all (t - w) o ts hout
  simp only [rateCheck, hp]
  simp [rlGet, rlStateOf, assocSet, Nat.not_le.mpr hpos, List.lookup]

theorem rlRun_append (maxR : Nat) (w : Int) (o : String) :
    ∀ (xs ys : List Int) (st : RLState),
      rlRun maxR w st o (xs ++ ys)
        = ((rlRun maxR w st o xs).1
              ++ (rlRun maxR w (rlRun maxR w st o xs).2 o ys).1,
            (rlRun maxR w (rlRun maxR w st o xs).2 o ys).2) := by
  intro xs
  induction xs with
  | nil => intro ys st; simp [rlRun]
  | cons x xs ih => intro ys st; simp [rlRun, ih]

theorem rlRun_accept_phase (maxR : Nat) (w : Int) (o : String) (tmax : Int) :
    ∀ (rem pre : List Int),
      pre.length + rem.length ≤ maxR →
      (∀ s ∈ pre ++ rem, tmax - w < s ∧ s ≤ tmax) →
      rlRun maxR w (rlStateOf o pre) o rem
        = (List.replicate rem.length true, rlStateOf o (pre ++ rem)) := by
  intro rem
  induction rem with
  | nil => intro pre _ _; simp [rlRun]
  | cons t rest ih =>
      intro pre hlen hbound
      have hstep : rateCheck maxR w (rlStateOf o pre) o t
          = (true, rlStateOf o (pre ++ [t])) := by
        apply rateCheck_accept_step
        · intro s hs
          have h1 := (hbound s (List.mem_append_left _ hs)).1
          have h2 := (hbound t (List.mem_append_right _ (by simp))).2
          omega
        · have := hlen
          simp only [List.length_cons] at this
          omega
      have hrest : rlRun maxR w (rlStateOf o (pre ++ [t])) o rest
          = (List.replicate rest.length true, rlStateOf o ((pre ++ [t]) ++ rest)) := by
        apply ih
        · simp only [List.length_append, List.length_singleton,
            List.length_cons, List.length_nil] at hlen ⊢
          omega
        · intro s hs
          apply hbound
          rw [List.append_assoc, List.singleton_append] at hs
          exact hs
      show (let step := rateCheck maxR w (rlStateOf o pre) o t
        let rest' := rlRun maxR w step.2 o rest
        (step.1 :: rest'.1, rest'.2))
        = (List.replicate (rest.length + 1) true, rlStateOf o (pre ++ t :: rest))
      rw [hstep]
      simp only [hrest, List.replicate_succ, List.append_assoc,
        List.singleton_append]

/-- C8. With ceiling `maxR` (> 0), any `maxR` requests from one origin
at times lying within the window that ends at `tN1` are all accepted;
the `(maxR+1)`-th request at `tN1` inside that same window is
rejected; and once the window has elapsed (a later request at `tlate`
with every recorded timestamp at least one window old), that request
is accepted again.  Each check first prunes entries older than the
window, rejects if the remaining count has reached the ceiling, and
otherwise records the new timestamp. -/
theorem rate_limiter_window (maxR : Nat) (w : Int) (o : String)
    (ts : List Int) (tN1 tlate : Int) (hpos : 0 < maxR)
    (hlen : ts.length = maxR)
    (hin : ∀ t ∈ ts, tN1 - w < t ∧ t ≤ tN1)
    (hlate : ∀ t ∈ ts, t ≤ tlate - w) :
    rlRun maxR w [] o (ts ++ [tN1, tlate])
      = (List.replicate maxR true ++ [false, true], rlStateOf o [tlate]) := by
  have hphase := rlRun_accept_phase maxR w o tN1 ts []
    (by simpa using hlen.le) (by simpa using hin)
  rw [show rlStateOf o ([] : List Int) = [] from rfl] at hphase
  rw [List.nil_append] at hphase
  have hrej : rateCheck maxR w (rlStateOf o ts) o tN1
      = (false, rlStateOf o ts) :=
    rateCheck_reject_step maxR w o ts tN1 (fun s hs => (hin s hs).1) hlen.ge
  have hexp : rateCheck maxR w (rlStateOf o ts) o tlate
      = (true, rlStateOf o [tlate]) :=
    rateCheck_expired_step maxR w o ts tlate hlate hpos
  have htail : rlRun maxR w (rlStateOf o ts) o [tN1, tlate]
      = ([false, true], rlStateOf o [tlate]) := by
    simp [rlRun, hrej, hexp]
  rw [rlRun_append, hphase, htail, hlen]

/-- Witness for C8 at the spec's own concrete scenario: ceiling 3,
window 1000 ms, three requests at times 0, 1, 2, a fourth at time 3
(rejected), and a fifth at time 1003 (accepted again). -/
theorem rate_limiter_window_witness :
    rlRun 3 1000 [] "https://a.example" [0, 1, 2, 3, 1003]
      = ([true, true, true, false, true], rlStateOf "https://a.example" [1003]) := by
  have h := rate_limiter_window 3 1000 "https://a.example" [0, 1, 2] 3 1003
    (by decide) (by decide) (by decide) (by decide)
  simpa using h

theorem delaySeq_shift (init maxD mult : Nat) :
    ∀ i, delaySeq (min (init * mult) maxD) maxD mult i
      = delaySeq init maxD mult (i + 1) := by
  intro i
  induction i with
  | zero => rfl
  | succ j ih => simp [delaySeq, ih]

theorem delaySeq_le_maxDelay (init maxD mult : Nat) (i : Nat) (h : 1 ≤ i) :
    delaySeq init maxD mult i ≤ maxD := by
  cases i with
  | zero => omega
  | succ j => simp [delaySeq]

theorem retryAux_spec {α β : Type} (op : Nat → Except β α)
    (sr : β → Nat → Bool) (mult maxD : Nat) :
    ∀ (fuel attempt delay : Nat),
      (retryAux op sr mult maxD attempt delay fuel).2.1 ≤ attempt + fuel + 1
      ∧ attempt + 1 ≤ (retryAux op sr mult maxD attempt delay fuel).2.1
      ∧ (retryAux op sr mult maxD attempt delay fuel).2.2
          = (List.range (retryAux op sr mult maxD attempt delay fuel).2.2.length).map
              (delaySeq delay maxD mult)
      ∧ (∀ e : β, (retryAux op sr mult maxD attempt delay fuel).1 = .error e →
          op ((retryAux op sr mult maxD attempt delay fuel).2.1 - 1) = .error e)
      ∧ (∀ a : α, (retryAux op sr mult maxD attempt delay fuel).1 = .ok a →
          op ((retryAux op sr mult maxD attempt delay fuel).2.1 - 1) = .ok a) := by
  intro fuel
  induction fuel with
  | zero =>
      intro attempt delay
      rcases hop : op attempt with e | r
      · have hunf : retryAux op sr mult maxD attempt delay 0
            = (.error e, attempt + 1, []) := by simp [retryAux, hop]
        rw [hunf]
        refine ⟨by show attempt + 1 ≤ attempt + 0 + 1; omega,
          by show attempt + 1 ≤ attempt + 1; omega, rfl, ?_, ?_⟩
        · intro e' he'
          cases he'
          simpa using hop
        · intro a ha
          cases ha
      · have hunf : retryAux op sr mult maxD attempt delay 0
            = (.ok r, attempt + 1, []) := by simp [retryAux, hop]
        rw [hunf]
        refine ⟨by show attempt + 1 ≤ attempt + 0 + 1; omega,
          by show attempt + 1 ≤ attempt + 1; omega, rfl, ?_, ?_⟩
        · intro e' he'
          cases he'
        · intro a ha
          cases ha
          simpa using hop
  | succ f ih =>
      intro attempt delay
      rcases hop : op attempt with e | r
      · by_cases hsr : sr e attempt
        · have hx := ih (attempt + 1) (min (delay * mult) maxD)
          have hunf : retryAux op sr mult maxD attempt delay (f + 1)
              = ((retryAux op sr mult maxD (attempt + 1)
                    (min (delay * mult) maxD) f).1,
                  (retryAux op sr mult maxD (attempt + 1)
                    (min (delay * mult) maxD) f).2.1,
                  delay :: (retryAux op sr mult maxD (attempt + 1)
                    (min (delay * mult) maxD) f).2.2) := by
            simp [retryAux, hop, hsr]
          have h1 : (retryAux op sr mult maxD attempt delay (f + 1)).1
              = (retryAux op sr mult maxD (attempt + 1)
                  (min (delay * mult) maxD) f).1 := by rw [hunf]
          have h21 : (retryAux op sr mult maxD attempt delay (f + 1)).2.1
              = (retryAux op sr mult maxD (attempt + 1)
                  (min (delay * mult) maxD) f).2.1 := by rw [hunf]
          have h22 : (retryAux op sr mult maxD attempt delay (f + 1)).2.2
              = delay :: (retryAux op sr mult maxD (attempt + 1)
                  (min (delay * mult) maxD) f).2.2 := by rw [hunf]
          have htail : (retryAux op sr mult maxD (attempt + 1)
                (min (delay * mult) maxD) f).2.2
              = (List.range (retryAux op sr mult maxD (attempt + 1)
                  (min (delay * mult) maxD) f).2.2.length).map
                  (delaySeq delay maxD mult ∘ Nat.succ) := by
            conv_lhs => rw [hx.2.2.1]
            apply List.map_congr_left
            intro i _
            simp only [Function.comp_apply]
            rw [delaySeq_shift]
          refine ⟨?_, ?_, ?_, ?_, ?_⟩
          · rw [h21]
            have := hx.1
            omega
          · rw [h21]
            have := hx.2.1
            omega
          · rw [h22, List.length_cons, List.range_succ_eq_map,
              List.map_cons, List.map_map]
            exact congrArg _ htail
          · intro e' he'
            rw [h1] at he'
            rw [h21]
            exact hx.2.2.2.1 e' he'
          · intro a ha
            rw [h1] at ha
            rw [h21]
            exact hx.2.2.2.2 a ha
        · have hunf : retryAux op sr mult maxD attempt delay (f + 1)
              = (.error e, attempt + 1, []) := by simp [retryAux, hop, hsr]
          rw [hunf]
          refine ⟨by show attempt + 1 ≤ attempt + (f + 1) + 1; omega,
            by show attempt + 1 ≤ attempt + 1; omega, rfl, ?_, ?_⟩
          · intro e' he'
            cases he'
            simpa using hop
          · intro a ha
            cases ha
      · have hunf : retryAux op sr mult maxD attempt delay (f + 1)
            = (.ok r, attempt + 1, []) := by simp [retryAux, hop]
        rw [hunf]
        refine ⟨by show attempt + 1 ≤ attempt + (f + 1) + 1; omega,
          by show attempt + 1 ≤ attempt + 1; omega, rfl, ?_, ?_⟩
        · intro e' he'
          cases he'
        · intro a ha
          cases ha
          simpa using hop

theorem retryAux_delays_le {α β : Type} (op : Nat → Except β α)
    (sr : β → Nat → Bool) (mult maxD : Nat) :
    ∀ (fuel attempt delay : Nat), delay ≤ maxD →
      ∀ d ∈ (retryAux op sr mult maxD attempt delay fuel).2.2, d ≤ maxD := by
  intro fuel
  induction fuel with
  | zero =>
      intro attempt delay hdel d hmem
      rcases hop : op attempt with e | r <;> simp [retryAux, hop] at hmem
  | succ f ih =>
      intro attempt delay hdel d hmem
      rcases hop : op attempt with e | r
      · by_cases hsr : sr e attempt
        · have hunf : (retryAux op sr mult maxD attempt delay (f + 1)).2.2
              = delay :: (retryAux op sr mult maxD (attempt + 1)
                  (min (delay * mult) maxD) f).2.2 := by
            simp [retryAux, hop, hsr]
          rw [hunf] at hmem
          rcases List.mem_cons.mp hmem with hd | hd
          · omega
          · exact ih (attempt + 1) (min (delay * mult) maxD)
              (min_le_right _ _) d hd
        · simp [retryAux, hop, hsr] at hmem
      · simp [retryAux, hop] at hmem

/-- C9 counterexample. The claim says the waited delays never exceed
`maxDelay`; but the cap is applied only when the running delay is
multiplied *after* a wait, so the very first wait is `initialDelay`
uncapped: with `maxRetries` 1, `initialDelay` 5000 and `maxDelay`
1000, an always-failing operation makes the handler wait 5000 ms —
above the 1000 ms ceiling. -/
theorem retry_initial_delay_counterexample :
    (retryRun 1 5000 1000 2 (fun (_ : String) (_ : Nat) => true)
        (fun _ => (.error "boom" : Except String Nat))).2.2 = [5000]
    ∧ ¬ (5000 ≤ 1000) := ⟨rfl, by decide⟩


/-- C9 (amended). The retry handler invokes the operation at most
`maxRetries + 1` times; the waited delays follow the sequence that
starts at `initialDelay` and after each retry is multiplied by
`backoffMultiplier` then capped at `maxDelay` — so every delay after
the first is at most `maxDelay`, though the first delay equals
`initialDelay` even when that exceeds `maxDelay`; and the run's
outcome is exactly the outcome of the last attempt made — in
particular a final failure rejects with the last observed error.
With `maxRetries` 2, `initialDelay` 100 and `backoffMultiplier` 2, an
operation failing twice then succeeding makes exactly 3 attempts with
delays of 100 ms and 200 ms (see the witness). -/
theorem retry_backoff {α β : Type} (op : Nat → Except β α)
    (sr : β → Nat → Bool) (mr init maxD mult : Nat) :
    (retryRun mr init maxD mult sr op).2.1 ≤ mr + 1
    ∧ (retryRun mr init maxD mult sr op).2.2
        = (List.range (retryRun mr init maxD mult sr op).2.2.length).map
            (delaySeq init maxD mult)
    ∧ (∀ d ∈ (retryRun mr init maxD mult sr op).2.2.drop 1, d ≤ maxD)
    ∧ (∀ e : β, (retryRun mr init maxD mult sr op).1 = .error e →
        op ((retryRun mr init maxD mult sr op).2.1 - 1) = .error e)
    ∧ (∀ a : α, (retryRun mr init maxD mult sr op).1 = .ok a →
        op ((retryRun mr init maxD mult sr op).2.1 - 1) = .ok a) := by
  have h := retryAux_spec op sr mult maxD mr 0 init
  refine ⟨by have := h.1; simpa [retryRun] using this, h.2.2.1, ?_,
    h.2.2.2.1, h.2.2.2.2⟩
  intro d hd
  rcases hop : op 0 with e | r
  · cases mr with
    | zero =>
        rw [show (retryRun 0 init maxD mult sr op).2.2 = [] from by
          simp [retryRun, retryAux, hop]] at hd
        simp at hd
    | succ f =>
        by_cases hsr : sr e 0
        · rw [show (retryRun (f + 1) init maxD mult sr op).2.2
              = init :: (retryAux op sr mult maxD 1
                  (min (init * mult) maxD) f).2.2 from by
            simp [retryRun, retryAux, hop, hsr]] at hd
          rw [List.drop_succ_cons, List.drop_zero] at hd
          exact retryAux_delays_le op sr mult maxD f 1
            (min (init * mult) maxD) (min_le_right _ _) d hd
        · rw [show (retryRun (f + 1) init maxD mult sr op).2.2 = [] from by
            simp [retryRun, retryAux, hop, hsr]] at hd
          simp at hd
  · cases mr with
    | zero =>
        rw [show (retryRun 0 init maxD mult sr op).2.2 = [] from by
          simp [retryRun, retryAux, hop]] at hd
        simp at hd
    | succ f =>
        rw [show (retryRun (f + 1) init maxD mult sr op).2.2 = [] from by
          simp [retryRun, retryAux, hop]] at hd
        simp at hd

/-- Witness for C9: the spec's own scenario — `maxRetries` 2,
`initialDelay` 100, `backoffMultiplier` 2 (default `maxDelay` 10000),
an operation failing on its first two invocations and succeeding on
the third — makes exactly 3 attempts, waits 100 ms then 200 ms, and
succeeds; the attempt bound and last-attempt identity follow from the
theorem. -/
theorem retry_backoff_witness :
    (retryRun 2 100 10000 2 (fun (_ : String) (_ : Nat) => true)
        (fun i => if i < 2 then .error "boom" else .ok 42)).2.1 = 3
    ∧ (retryRun 2 100 10000 2 (fun (_ : String) (_ : Nat) => true)
        (fun i => if i < 2 then .error "boom" else .ok 42)).2.2 = [100, 200]
    ∧ (retryRun 2 100 10000 2 (fun (_ : String) (_ : Nat) => true)
        (fun i => if i < 2 then .error "boom" else .ok 42)).1
        = (.ok 42 : Except String Nat)
    ∧ (retryRun 2 100 10000 2 (fun (_ : String) (_ : Nat) => true)
        (fun i => if i < 2 then .error "boom" else .ok 42)).2.1 ≤ 3
    ∧ (fun i => if i < 2 then (.error "boom" : Except String Nat) else .ok 42)
        ((retryRun 2 100 10000 2 (fun (_ : String) (_ : Nat) => true)
          (fun i => if i < 2 then .error "boom" else .ok 42)).2.1 - 1)
        = .ok 42 := by
  have h := retry_backoff
    (fun i => if i < 2 then (.error "boom" : Except String Nat) else .ok 42)
    (fun _ _ => true) 2 100 10000 2
  exact ⟨rfl, rfl, rfl, h.1, h.2.2.2.2 42 rfl⟩

/-- C10. In the simple `RPC` and in `EmbedApi`, the constructor
registers `this.handleMessage.bind(this)` — a fresh function object,
necessarily distinct from the plain `this.handleMessage` reference —
while `destroy()` calls `removeEventListener` with the plain method
reference, which is not in the listener list; the removal is therefore
a no-op, the bound listener stays installed, and a destroyed instance
keeps processing inbound requests: the simple `RPC` (registry cleared)
still answers with a method-not-found response, and `EmbedApi` still
answers `ping` with `"pong"`. -/
theorem destroyed_listener_remains (bound methodRef : ℕ)
    (listeners : List ℕ) (hne : bound ≠ methodRef)
    (hnotin : methodRef ∉ listeners) :
    destroyRemoveListener (constructorAddListener listeners bound) methodRef
      = constructorAddListener listeners bound
    ∧ bound ∈ destroyRemoveListener (constructorAddListener listeners bound)
        methodRef
    ∧ (∀ ev : ReqEvent, rpcHandleRequest [] ev
        = ⟨ev.source, ev.id, none,
            some ("Method '" ++ ev.method ++ "' not found")⟩)
    ∧ (∀ (parent id : ℕ) (info : JSValue) (args : List JSValue),
        embedHandleRequest ⟨parent, [], info⟩ ⟨0, id, "ping", args⟩
          = ⟨parent, id, some (.vStr "pong"), none⟩) := by
  have hmem : bound ∈ constructorAddListener listeners bound := by
    unfold constructorAddListener jsAddEventListener
    split_ifs with h
    · exact h
    · simp
  have hnot2 : methodRef ∉ constructorAddListener listeners bound := by
    unfold constructorAddListener jsAddEventListener
    split_ifs with h
    · exact hnotin
    · intro hc
      rcases List.mem_append.mp hc with hc | hc
      · exact hnotin hc
      · simp at hc
        exact hne hc.symm
  have herase : destroyRemoveListener (constructorAddListener listeners bound)
      methodRef = constructorAddListener listeners bound :=
    List.erase_of_not_mem hnot2
  refine ⟨herase, by rw [herase]; exact hmem, fun ev => rfl,
    fun parent id info args => rfl⟩

/-- Witness for C10 at concrete inputs: bound listener 2 registered on
an empty listener list, method reference 1 passed to the removal. -/
theorem destroyed_listener_remains_witness :
    destroyRemoveListener (constructorAddListener [] 2) 1
      = constructorAddListener [] 2
    ∧ 2 ∈ destroyRemoveListener (constructorAddListener [] 2) 1
    ∧ rpcHandleRequest [] ⟨3, 9, "getData", []⟩
        = ⟨3, 9, none, some "Method 'getData' not found"⟩
    ∧ embedHandleRequest ⟨1, [], .vNull⟩ ⟨0, 9, "ping", []⟩
        = ⟨1, 9, some (.vStr "pong"), none⟩ := by
  have h := destroyed_listener_remains 2 1 [] (by decide) (by simp)
  exact ⟨h.1, h.2.1, h.2.2.1 ⟨3, 9, "getData", []⟩, h.2.2.2 1 9 .vNull []⟩
